import Mathlib

/-!
Shallow embedding of the GeoJSON Omniverse extension
(`src/exts/twinmatrix.util.geojson/twinmatrix/util/geojson/extension.py`):
the geometry data model, geographic-bounds computation (`GeoJSONData`),
ear-clipping polygon triangulation (`_triangulate_polygon`,
`is_valid_ear`, `_point_in_triangle`) and the stage-object emission pass
(`_create_stage_objects`).

Python floats are modelled as exact rationals.  The IEEE special values
the source manipulates explicitly (`float("inf")` / `float("-inf")`
fold seeds, and the inf/nan arithmetic reachable in the normalization
transform) are modelled by the `EFloat` type below.  The geodetic
projection `_geo_to_cartesian` is a transcendental function
(`math.tan`, `math.log`, `math.sin`, `math.pow`), so the emission pass
is parametrized over an abstract projection function `proj`.
-/

namespace GeoJsonExt

/-- A 3D point or vector (models the `Gf.Vec3f` / `Gf.Vec3d` triples of
the source; Python float components modelled as rationals). -/
structure Vec3 where
  x : ℚ
  y : ℚ
  z : ℚ
deriving DecidableEq

/-- A raw GeoJSON coordinate pair `(longitude, latitude)` as it appears in
a `coordinates` array. -/
abbrev Coord2 := ℚ × ℚ

/-- A Python float value as the source sees it: finite values plus the
IEEE specials `inf`, `-inf` (used as fold seeds at lines 64-65 and
341-343 of the source) and `nan` (producible by the inf arithmetic of
the normalization transform). -/
inductive EFloat where
  | nan : EFloat
  | negInf : EFloat
  | posInf : EFloat
  | fin : ℚ → EFloat
deriving DecidableEq

namespace EFloat

/-- Python float `<` (IEEE: comparisons involving NaN are false). -/
def lt : EFloat → EFloat → Bool
  | nan, _ => false
  | _, nan => false
  | negInf, negInf => false
  | negInf, _ => true
  | posInf, _ => false
  | _, posInf => true
  | fin _, negInf => false
  | fin a, fin b => decide (a < b)

/-- Python float `<=` (IEEE: comparisons involving NaN are false). -/
def le : EFloat → EFloat → Bool
  | nan, _ => false
  | _, nan => false
  | negInf, _ => true
  | _, posInf => true
  | posInf, _ => false
  | fin _, negInf => false
  | fin a, fin b => decide (a ≤ b)

/-- Python builtin `min` on two floats: keeps the first argument unless
the second compares strictly smaller. -/
def pymin (a b : EFloat) : EFloat := if lt b a then b else a

/-- Python builtin `max` on two floats: keeps the first argument unless
the second compares strictly larger. -/
def pymax (a b : EFloat) : EFloat := if lt a b then b else a

/-- IEEE addition on the modelled values (`inf + -inf = nan`). -/
def add : EFloat → EFloat → EFloat
  | nan, _ => nan
  | _, nan => nan
  | posInf, negInf => nan
  | negInf, posInf => nan
  | posInf, _ => posInf
  | _, posInf => posInf
  | negInf, _ => negInf
  | _, negInf => negInf
  | fin a, fin b => fin (a + b)

/-- IEEE negation. -/
def neg : EFloat → EFloat
  | nan => nan
  | posInf => negInf
  | negInf => posInf
  | fin a => fin (-a)

/-- IEEE subtraction, `a - b = a + (-b)`. -/
def sub (a b : EFloat) : EFloat := add a (neg b)

/-- IEEE multiplication (`inf * 0 = nan`, sign rules on infinities). -/
def mul : EFloat → EFloat → EFloat
  | nan, _ => nan
  | _, nan => nan
  | posInf, posInf => posInf
  | posInf, negInf => negInf
  | negInf, posInf => negInf
  | negInf, negInf => posInf
  | posInf, fin q => if q = 0 then nan else if 0 < q then posInf else negInf
  | fin q, posInf => if q = 0 then nan else if 0 < q then posInf else negInf
  | negInf, fin q => if q = 0 then nan else if 0 < q then negInf else posInf
  | fin q, negInf => if q = 0 then nan else if 0 < q then negInf else posInf
  | fin a, fin b => fin (a * b)

/-- Division by the finite literal 2 (used for the midpoint computation
`(min + max) / 2` of the source). -/
def div2 : EFloat → EFloat
  | nan => nan
  | posInf => posInf
  | negInf => negInf
  | fin a => fin (a / 2)

/-- Python `1.0 / m`: raises `ZeroDivisionError` exactly when the divisor
is zero; `1 / inf` and `1 / -inf` are (signed) zero, which collapses to
`fin 0` in this exact model. -/
def oneDiv : EFloat → Except String EFloat
  | nan => .ok nan
  | posInf => .ok (fin 0)
  | negInf => .ok (fin 0)
  | fin q =>
    if q = 0 then .error "ZeroDivisionError: float division by zero"
    else .ok (fin (1 / q))

end EFloat

/-- A GeoJSON geometry object, tagged by its `type` field, carrying its
`coordinates` value.  `other` covers every unsupported `type` string. -/
inductive Geometry where
  | point : Coord2 → Geometry
  | lineString : List Coord2 → Geometry
  | polygon : List (List Coord2) → Geometry
  | multiPolygon : List (List (List Coord2)) → Geometry
  | other : String → Geometry
deriving DecidableEq

/-- A feature entry of the `features` array.  The property bag is opaque
and never consulted by the modelled code, so it is omitted;
`geometry = none` models a feature entry that lacks the "geometry" key
(so `feature["geometry"]` raises `KeyError` while
`feature.get("geometry", default)` yields the default). -/
structure Feature where
  geometry : Option Geometry
deriving DecidableEq

/-- The bounds dict built by `GeoJSONData._calculate_bounds`:
`min = (minX, minY)`, `max = (maxX, maxY)`. -/
structure GeoBounds where
  minX : EFloat
  minY : EFloat
  maxX : EFloat
  maxY : EFloat
deriving DecidableEq

/-- The state of a `GeoJSONData` instance after a successful load:
the feature list and the derived optional bounds. -/
structure Document where
  features : List Feature
  bounds : Option GeoBounds
deriving DecidableEq

/-- The value returned by `json.load` in `load_from_file`, abstracted by
its top-level `type` tag: a FeatureCollection with its `features` array
(absent array modelled as `[]`), a single Feature, or any other /
missing `type` (which `load_from_file` rejects with `ValueError`). -/
inductive ParsedJSON where
  | featureCollection : List Feature → ParsedJSON
  | feature : Feature → ParsedJSON
  | otherType : Option String → ParsedJSON
deriving DecidableEq

/-- `GeoJSONData._get_feature_coordinates` (source lines 80-90): collects
the coordinates of Point / LineString / Polygon geometries (all rings of
a Polygon); any other geometry type contributes no coordinates.
`feature["geometry"]` raises `KeyError` when the key is missing, which
the embedding returns as an `Except.error`. -/
def get_feature_coordinates (f : Feature) : Except String (List Coord2) :=
  match f.geometry with
  | none => .error "KeyError: geometry"
  | some (.point c) => .ok [c]
  | some (.lineString cs) => .ok cs
  | some (.polygon rings) => .ok rings.flatten
  | some _ => .ok []

/-- One min/max fold step of `_calculate_bounds` over a single
coordinate (source lines 69-73). -/
def boundsStep (st : GeoBounds) (c : Coord2) : GeoBounds :=
  ⟨EFloat.pymin st.minX (.fin c.1), EFloat.pymin st.minY (.fin c.2),
   EFloat.pymax st.maxX (.fin c.1), EFloat.pymax st.maxY (.fin c.2)⟩

/-- The fold of `_calculate_bounds` over one feature's coordinate list. -/
def foldCoords (st : GeoBounds) (cs : List Coord2) : GeoBounds :=
  cs.foldl boundsStep st

/-- The fold seed of `_calculate_bounds` (source lines 64-65):
`min_x = min_y = inf`, `max_x = max_y = -inf`. -/
def seedBounds : GeoBounds := ⟨.posInf, .posInf, .negInf, .negInf⟩

/-- The per-feature loop of `_calculate_bounds` (source lines 67-73); an
exception raised while extracting a feature's coordinates aborts the
whole computation. -/
def boundsPass : List Feature → GeoBounds → Except String GeoBounds
  | [], st => .ok st
  | f :: fs, st =>
    match get_feature_coordinates f with
    | .error e => .error e
    | .ok cs => boundsPass fs (foldCoords st cs)

/-- `GeoJSONData._calculate_bounds` (source lines 59-78): `none` for an
empty feature list, otherwise the min/max fold over every feature. -/
def calculate_bounds (features : List Feature) : Except String (Option GeoBounds) :=
  if features = [] then .ok none
  else (boundsPass features seedBounds).map some

/-- The successful-parse tail of `GeoJSONData.load_from_file` for a given
feature list: computes bounds and produces the loaded document, or
`none` when bounds computation raises (the `except KeyError` /
`except Exception` handlers at source lines 52-57 return `False`). -/
def loadFeatures (fs : List Feature) : Option Document :=
  match calculate_bounds fs with
  | .error _ => none
  | .ok b => some ⟨fs, b⟩

/-- `GeoJSONData.load_from_file` after `json.load` succeeded (source
lines 27-57): validates the top-level type, wraps a bare Feature as a
one-element list, and computes bounds.  `none` models a `False` return
(no usable document). -/
def load_from_parsed : ParsedJSON → Option Document
  | .otherType _ => none
  | .feature f => loadFeatures [f]
  | .featureCollection fs => loadFeatures fs

/-! ### Triangulator -/

/-- Componentwise vector subtraction on `Vec3` (the `p2 - p1` edge
vectors built at source lines 267-268). -/
def vsub (a b : Vec3) : Vec3 := ⟨a.x - b.x, a.y - b.y, a.z - b.z⟩

/-- The 3D cross product `Gf.Cross` (source line 269). -/
def cross3 (u v : Vec3) : Vec3 :=
  ⟨u.y * v.z - u.z * v.y, u.z * v.x - u.x * v.z, u.x * v.y - u.y * v.x⟩

/-- The Y component of `Gf.Cross(p2 - p1, p3 - p2)`: twice the signed
area of triangle `(p1, p2, p3)` in the X/Z plane under the source's
counter-clockwise-from-+Y ("triangle points up") convention, positive
exactly when the triangle passes the orientation test of
`is_valid_ear`. -/
def crossY (p1 p2 p3 : Vec3) : ℚ :=
  (p2.z - p1.z) * (p3.x - p2.x) - (p2.x - p1.x) * (p3.z - p2.z)

/-- The `sign` helper of `_point_in_triangle` (source lines 314-315). -/
def signT (p1 p2 p3 : Vec3) : ℚ :=
  (p1.x - p3.x) * (p2.z - p3.z) - (p2.x - p3.x) * (p1.z - p3.z)

/-- `TwinmatrixUtilGeojsonExtension._point_in_triangle` (source lines
312-324): sign-based half-plane test in the X/Z plane; a point with no
strict sign mix (including points on an edge line) counts as inside. -/
def point_in_triangle (p a b c : Vec3) : Bool :=
  !((decide (signT p a b < 0) || decide (signT p b c < 0) || decide (signT p c a < 0)) &&
    (decide (0 < signT p a b) || decide (0 < signT p b c) || decide (0 < signT p c a)))

/-- List lookup `vs[i]` on a vertex array.  Every use site of the source
indexes within bounds, so the default value is never produced there. -/
def vget (vs : List Vec3) (i : ℕ) : Vec3 := vs.getD i ⟨0, 0, 0⟩

/-- List lookup `ns[i]` on an index list (same in-bounds remark as
`vget`). -/
def nget (ns : List ℕ) (i : ℕ) : ℕ := ns.getD i 0

/-- `remaining[(remaining.index(i) - 1) % len(remaining)]` (source lines
259, 293).  Python's `%` on the possibly-negative `idx - 1` is rendered
as `(idx + len - 1) % len`, which agrees for every in-range `idx`; all
source call sites have `i ∈ remaining`. -/
def prevOf (remaining : List ℕ) (i : ℕ) : ℕ :=
  nget remaining ((remaining.indexOf i + remaining.length - 1) % remaining.length)

/-- `remaining[(remaining.index(i) + 1) % len(remaining)]` (source lines
260, 294). -/
def nextOf (remaining : List ℕ) (i : ℕ) : ℕ :=
  nget remaining ((remaining.indexOf i + 1) % remaining.length)

/-- `is_valid_ear` (source lines 253-284): vertex `i` of the shrinking
`remaining` list is a valid ear when the cross product of its adjacent
edge vectors has strictly positive Y component and no other remaining
vertex lies inside (or on the boundary of) the candidate triangle. -/
def is_valid_ear (vertices : List Vec3) (remaining : List ℕ) (i : ℕ) : Bool :=
  if remaining.length < 3 then false
  else if (cross3 (vsub (vget vertices i) (vget vertices (prevOf remaining i)))
                  (vsub (vget vertices (nextOf remaining i)) (vget vertices i))).y ≤ 0 then
    false
  else
    remaining.all fun j =>
      if j = prevOf remaining i ∨ j = i ∨ j = nextOf remaining i then true
      else !point_in_triangle (vget vertices j)
             (vget vertices (prevOf remaining i)) (vget vertices i)
             (vget vertices (nextOf remaining i))

/-- The main triangulation loop of `_triangulate_polygon` (source lines
287-304): while more than three vertices remain, find the first valid
ear in list order, emit its `(prev, i, next)` triple and remove it;
abort when a full scan finds no ear.  The first component is the emitted
index list, the second the final `remaining` list.  Fuel is an upper
bound on the number of iterations; each iteration removes one element of
`remaining`, so any fuel `≥ remaining.length` reproduces the source's
loop exactly. -/
def earLoop (vertices : List Vec3) : ℕ → List ℕ → List ℕ × List ℕ
  | 0, remaining => ([], remaining)
  | fuel + 1, remaining =>
    if 3 < remaining.length then
      match remaining.find? (fun i => is_valid_ear vertices remaining i) with
      | some i =>
        let rest := earLoop vertices fuel (remaining.erase i)
        (prevOf remaining i :: i :: nextOf remaining i :: rest.1, rest.2)
      | none => ([], remaining)
    else ([], remaining)

/-- The closed-ring normalization of `_triangulate_polygon` (source
lines 233-238): if the first and last points differ the ring is closed
by appending the first point, then the (now duplicated) last point is
dropped, yielding the working vertex array. -/
def workingVertices (points : List Vec3) : List Vec3 :=
  (if vget points 0 ≠ vget points (points.length - 1)
   then points ++ [vget points 0] else points).dropLast

/-- `TwinmatrixUtilGeojsonExtension._triangulate_polygon` (source lines
223-310): guards for fewer than 3 input points and fewer than 3 working
vertices, runs the ear-clipping loop over the index list
`range(len(vertices))`, and appends the final `remaining` triple
unconditionally when exactly three vertices are left. -/
def triangulate_polygon (points : List Vec3) : List ℕ :=
  if points.length < 3 then []
  else if (workingVertices points).length < 3 then []
  else if (earLoop (workingVertices points) (workingVertices points).length
             (List.range (workingVertices points).length)).2.length = 3 then
    (earLoop (workingVertices points) (workingVertices points).length
       (List.range (workingVertices points).length)).1 ++
    (earLoop (workingVertices points) (workingVertices points).length
       (List.range (workingVertices points).length)).2
  else
    (earLoop (workingVertices points) (workingVertices points).length
       (List.range (workingVertices points).length)).1

/-! ### Stage-object emission (`_create_stage_objects`) -/

/-- The projected Cartesian bounding box `bounds_cart` of the first
emission pass (source lines 340-343); only the X and Z components are
folded (index 1 of the min/max lists is never touched). -/
structure CartBounds where
  minX : EFloat
  minZ : EFloat
  maxX : EFloat
  maxZ : EFloat
deriving DecidableEq

/-- The `bounds_cart` seed (source lines 340-343). -/
def cartInit : CartBounds := ⟨.posInf, .posInf, .negInf, .negInf⟩

/-- One fold step of the first emission pass over a projected point
(source lines 350-353). -/
def cartStep (b : CartBounds) (p : Vec3) : CartBounds :=
  ⟨EFloat.pymin b.minX (.fin p.x), EFloat.pymin b.minZ (.fin p.z),
   EFloat.pymax b.maxX (.fin p.x), EFloat.pymax b.maxZ (.fin p.z)⟩

/-- First emission pass, one feature (source lines 345-353): Polygon
features fold the projected coordinates of
`geometry.get("coordinates", [[]])[0]`; a present-but-empty rings list
makes that `[0]` raise `IndexError`; everything else is skipped. -/
def cartFoldFeature (proj : ℚ → ℚ → Vec3) (st : CartBounds) (f : Feature) :
    Except String CartBounds :=
  match f.geometry with
  | some (.polygon []) => .error "IndexError: list index out of range"
  | some (.polygon (outer :: _)) =>
    .ok (outer.foldl (fun b c => cartStep b (proj c.1 c.2)) st)
  | _ => .ok st

/-- The first emission pass over the whole feature list. -/
def cartPass (proj : ℚ → ℚ → Vec3) : List Feature → CartBounds → Except String CartBounds
  | [], st => .ok st
  | f :: fs, st =>
    match cartFoldFeature proj st f with
    | .error e => .error e
    | .ok st2 => cartPass proj fs st2

/-- The populated USD mesh produced for one Polygon feature (source
lines 414-424): points, face vertex counts/indices, per-point normals,
display color and the double-sided flag. -/
structure MeshData where
  points : List Vec3
  faceVertexCounts : List ℕ
  faceVertexIndices : List ℕ
  normals : List Vec3
  displayColor : List Vec3
  doubleSided : Bool
deriving DecidableEq

/-- Second emission pass, one feature (source lines 376-433): a Polygon
projects its exterior ring (`rings[0]` raising `IndexError` on an empty
rings list), skips rings of fewer than 3 points, triangulates, and
emits a populated mesh only when triangulation produced a non-empty
index list; MultiPolygon and every other geometry type (including a
missing geometry, whose type reads as unsupported via
`feature.get("geometry", {})`) emit nothing. -/
def processFeature (proj : ℚ → ℚ → Vec3) (f : Feature) : Except String (List MeshData) :=
  match f.geometry with
  | some (.polygon []) => .error "IndexError: list index out of range"
  | some (.polygon (outer :: _)) =>
    if outer.length < 3 then .ok []
    else
      let pts := outer.map fun c => proj c.1 c.2
      let face := triangulate_polygon pts
      if face = [] then .ok []
      else
        .ok [{ points := pts
               faceVertexCounts := List.replicate (face.length / 3) 3
               faceVertexIndices := face
               normals := List.replicate pts.length ⟨0, 1, 0⟩
               displayColor := [⟨0.8, 0.8, 0.8⟩]
               doubleSided := true }]
  | _ => .ok []

/-- The second emission pass over the whole feature list, accumulating
emitted meshes in feature order. -/
def meshPass (proj : ℚ → ℚ → Vec3) : List Feature → List MeshData → Except String (List MeshData)
  | [], acc => .ok acc
  | f :: fs, acc =>
    match processFeature proj f with
    | .error e => .error e
    | .ok ms => meshPass proj fs (acc ++ ms)

/-- The data produced by `_create_stage_objects`: the root translate and
scale ops (source lines 370-374) and the emitted meshes. -/
structure StageResult where
  translateOp : EFloat × EFloat × EFloat
  scaleOp : EFloat × EFloat × EFloat
  meshes : List MeshData
deriving DecidableEq

/-- `TwinmatrixUtilGeojsonExtension._create_stage_objects` (source lines
326-436), parametrized by the projection: first pass folds the projected
X/Z bounding box of all Polygon exterior rings; then
`center = (min + max) / 2`, `width = max.x - min.x`,
`depth = max.z - min.z` and `scale = 1.0 / max(width, depth) * 1000`
(an unguarded division); then the second pass emits the meshes.  An
uncaught Python exception in any stage is the `Except.error` case. -/
def create_stage_objects (proj : ℚ → ℚ → Vec3) (features : List Feature) :
    Except String StageResult :=
  match cartPass proj features cartInit with
  | .error e => .error e
  | .ok cb =>
    match EFloat.oneDiv (EFloat.pymax (EFloat.sub cb.maxX cb.minX) (EFloat.sub cb.maxZ cb.minZ)) with
    | .error e => .error e
    | .ok invM =>
      match meshPass proj features [] with
      | .error e => .error e
      | .ok meshes =>
        .ok { translateOp :=
                (EFloat.mul (EFloat.neg (EFloat.div2 (EFloat.add cb.minX cb.maxX)))
                   (EFloat.mul invM (.fin 1000)),
                 .fin 0,
                 EFloat.mul (EFloat.neg (EFloat.div2 (EFloat.add cb.minZ cb.maxZ)))
                   (EFloat.mul invM (.fin 1000)))
              scaleOp :=
                (EFloat.mul invM (.fin 1000), EFloat.mul invM (.fin 1000),
                 EFloat.mul invM (.fin 1000))
              meshes := meshes }

/-- Decidable equality of `Except` values, used to evaluate the
embedding at concrete inputs. -/
instance {ε α : Type _} [DecidableEq ε] [DecidableEq α] : DecidableEq (Except ε α) := fun a b =>
  match a, b with
  | .error x, .error y =>
    if h : x = y then .isTrue (h ▸ rfl) else .isFalse fun hh => h (Except.error.inj hh)
  | .ok x, .ok y =>
    if h : x = y then .isTrue (h ▸ rfl) else .isFalse fun hh => h (Except.ok.inj hh)
  | .error _, .ok _ => .isFalse fun hh => Except.noConfusion hh
  | .ok _, .error _ => .isFalse fun hh => Except.noConfusion hh

/-- A concrete stand-in projection used to evaluate the emission pass at
specific inputs (the real `_geo_to_cartesian` is transcendental and
enters the embedding only as the abstract `proj` parameter). -/
def projXZ : ℚ → ℚ → Vec3 := fun lon lat => ⟨lon, 0, lat⟩

/-- Invariant of one min/max axis of the bounds fold: either still at the
`(+inf, -inf)` seeds, or both finite and correctly ordered. -/
def axisOk (mn mx : EFloat) : Prop :=
  (mn = .posInf ∧ mx = .negInf) ∨ ∃ a b : ℚ, mn = .fin a ∧ mx = .fin b ∧ a ≤ b

/-- One min/max axis of the bounds fold after at least one coordinate has
been folded: both ends finite and correctly ordered. -/
def axisFin (mn mx : EFloat) : Prop :=
  ∃ a b : ℚ, mn = .fin a ∧ mx = .fin b ∧ a ≤ b

/-- Both axes of a `GeoBounds` state satisfy `axisOk`. -/
def stOk (st : GeoBounds) : Prop := axisOk st.minX st.maxX ∧ axisOk st.minY st.maxY

/-- Both axes of a `GeoBounds` state satisfy `axisFin`. -/
def stFin (st : GeoBounds) : Prop := axisFin st.minX st.maxX ∧ axisFin st.minY st.maxY

/-! ### Theorems -/

attribute [local semireducible] Rat.add Rat.sub Rat.mul Rat.inv Rat.ofScientific

/-- `crossY` is invariant under cyclic permutation of the triangle. -/
theorem crossY_cyc (a b c : Vec3) : crossY a b c = crossY b c a := by
  unfold crossY; ring

/-- Swapping the last two vertices negates `crossY`. -/
theorem crossY_swap_right (a b c : Vec3) : crossY a c b = -crossY a b c := by
  unfold crossY; ring

/-- A triangle with a repeated vertex has zero `crossY`. -/
theorem crossY_degen (a b : Vec3) : crossY a b a = 0 := by
  unfold crossY; ring

/-- The `sign` helper of `_point_in_triangle` is a negated orientation
form. -/
theorem signT_eq_neg_crossY (p a b : Vec3) : signT p a b = -crossY p a b := by
  unfold signT crossY; ring

/-- The Y component of the ear test's cross product is exactly `crossY`
of the candidate triangle. -/
theorem cross3_y_eq (p1 p2 p3 : Vec3) :
    (cross3 (vsub p2 p1) (vsub p3 p2)).y = crossY p1 p2 p3 := rfl

/-- An in-range `vget` produces a member of the list. -/
theorem vget_mem {vs : List Vec3} {k : ℕ} (h : k < vs.length) : vget vs k ∈ vs := by
  unfold vget
  rw [List.getD_eq_getElem _ _ h]
  exact List.getElem_mem h

/-- An in-range `nget` produces a member of the list. -/
theorem nget_mem {ns : List ℕ} {k : ℕ} (h : k < ns.length) : nget ns k ∈ ns := by
  unfold nget
  rw [List.getD_eq_getElem _ _ h]
  exact List.getElem_mem h

/-- The cyclic predecessor lookup stays inside `remaining`. -/
theorem prevOf_mem {remaining : List ℕ} (h : remaining ≠ []) (i : ℕ) :
    prevOf remaining i ∈ remaining :=
  nget_mem (Nat.mod_lt _ (List.length_pos.mpr h))

/-- The cyclic successor lookup stays inside `remaining`. -/
theorem nextOf_mem {remaining : List ℕ} (h : remaining ≠ []) (i : ℕ) :
    nextOf remaining i ∈ remaining :=
  nget_mem (Nat.mod_lt _ (List.length_pos.mpr h))

/-- A vertex that passes the ear test spans a triangle of strictly
positive `crossY`. -/
theorem is_valid_ear_pos {vertices : List Vec3} {remaining : List ℕ} {i : ℕ}
    (h : is_valid_ear vertices remaining i = true) :
    0 < crossY (vget vertices (prevOf remaining i)) (vget vertices i)
        (vget vertices (nextOf remaining i)) := by
  unfold is_valid_ear at h
  by_cases h1 : remaining.length < 3
  · rw [if_pos h1] at h
    exact absurd h (by simp)
  · rw [if_neg h1] at h
    by_cases h2 : (cross3 (vsub (vget vertices i) (vget vertices (prevOf remaining i)))
        (vsub (vget vertices (nextOf remaining i)) (vget vertices i))).y ≤ 0
    · rw [if_pos h2] at h
      exact absurd h (by simp)
    · rw [← cross3_y_eq]
      exact not_le.mp h2

/-- An ear-loop step that found an ear. -/
theorem earLoop_succ_some {vertices : List Vec3} {remaining : List ℕ} {i : ℕ} (f : ℕ)
    (hlen : 3 < remaining.length)
    (hfind : remaining.find? (fun j => is_valid_ear vertices remaining j) = some i) :
    earLoop vertices (f + 1) remaining =
      (prevOf remaining i :: i :: nextOf remaining i ::
         (earLoop vertices f (remaining.erase i)).1,
       (earLoop vertices f (remaining.erase i)).2) := by
  conv_lhs => rw [earLoop]
  rw [if_pos hlen, hfind]

/-- An ear loop whose scan finds no valid ear stops at once. -/
theorem earLoop_none {vertices : List Vec3} {remaining : List ℕ} (f : ℕ)
    (hfind : remaining.find? (fun j => is_valid_ear vertices remaining j) = none) :
    earLoop vertices f remaining = ([], remaining) := by
  cases f with
  | zero => rw [earLoop]
  | succ f =>
    conv_lhs => rw [earLoop]
    split
    · rw [hfind]
    · rfl

/-- The ear loop does not run when at most three vertices remain. -/
theorem earLoop_stop {vertices : List Vec3} {remaining : List ℕ} (f : ℕ)
    (hlen : ¬ 3 < remaining.length) :
    earLoop vertices f remaining = ([], remaining) := by
  cases f with
  | zero => rw [earLoop]
  | succ f =>
    conv_lhs => rw [earLoop]
    rw [if_neg hlen]

/-- Dropping the last element never adds members. -/
theorem dropLast_mem {α : Type _} {l : List α} {x : α} (hx : x ∈ l.dropLast) : x ∈ l := by
  rw [List.dropLast_eq_take] at hx
  exact List.take_subset _ _ hx

/-- The working vertex array is made of points of the input ring. -/
theorem wv_subset {points : List Vec3} (h : points ≠ []) {x : Vec3}
    (hx : x ∈ workingVertices points) : x ∈ points := by
  unfold workingVertices at hx
  have hx2 := dropLast_mem hx
  by_cases hc : vget points 0 ≠ vget points (points.length - 1)
  · rw [if_pos hc] at hx2
    rcases List.mem_append.mp hx2 with h2 | h2
    · exact h2
    · rw [List.mem_singleton] at h2
      subst h2
      exact vget_mem (List.length_pos.mpr h)
  · rw [if_neg hc] at hx2
    exact hx2

/-- The working vertex array is never longer than the input ring. -/
theorem wv_len (points : List Vec3) : (workingVertices points).length ≤ points.length := by
  unfold workingVertices
  split
  · rw [List.dropLast_concat]
  · rw [List.length_dropLast]
    omega

/-- C6: for every input ring, a coordinate-equal first/last pair makes
the working vertex array the input with the duplicate last point
dropped, and the triangulator returns an empty list both when the input
has fewer than 3 points and when the working vertex array after
normalization has fewer than 3 vertices. -/
theorem c6_normalization (points : List Vec3) :
    (vget points 0 = vget points (points.length - 1) →
       workingVertices points = points.dropLast) ∧
    (points.length < 3 → triangulate_polygon points = []) ∧
    ((workingVertices points).length < 3 → triangulate_polygon points = []) := by
  refine ⟨fun he => ?_, fun h => ?_, fun h => ?_⟩
  · unfold workingVertices
    rw [if_neg (not_not_intro he)]
  · unfold triangulate_polygon
    rw [if_pos h]
  · unfold triangulate_polygon
    by_cases h1 : points.length < 3
    · rw [if_pos h1]
    · rw [if_neg h1, if_pos h]

/-- C6 witness: the closed 3-point ring `[(0,0,0), (1,0,1), (0,0,0)]`
has its duplicate closing point dropped and triangulates to nothing. -/
theorem c6_witness :
    workingVertices ([⟨0,0,0⟩, ⟨1,0,1⟩, ⟨0,0,0⟩] : List Vec3) =
      ([⟨0,0,0⟩, ⟨1,0,1⟩, ⟨0,0,0⟩] : List Vec3).dropLast ∧
    triangulate_polygon ([⟨0,0,0⟩, ⟨1,0,1⟩, ⟨0,0,0⟩] : List Vec3) = [] :=
  ⟨(c6_normalization _).1 (by decide), (c6_normalization _).2.2 (by decide)⟩

/-- C2 counterexample: the open ring `[(0,0,0), (1,0,1), (2,0,2)]` is
collinear (every `crossY` vanishes), yet the triangulator emits the
triple `[0, 1, 2]` rather than the empty list the claim demands. -/
theorem c2_counterexample :
    (∀ p ∈ ([⟨0,0,0⟩, ⟨1,0,1⟩, ⟨2,0,2⟩] : List Vec3),
       ∀ q ∈ ([⟨0,0,0⟩, ⟨1,0,1⟩, ⟨2,0,2⟩] : List Vec3),
       ∀ r ∈ ([⟨0,0,0⟩, ⟨1,0,1⟩, ⟨2,0,2⟩] : List Vec3), crossY p q r = 0) ∧
    triangulate_polygon ([⟨0,0,0⟩, ⟨1,0,1⟩, ⟨2,0,2⟩] : List Vec3) = [0, 1, 2] := by
  constructor <;> decide

/-- C3 counterexample: the final triangle of the collinear ring
`[(0,0,0), (1,0,1), (2,0,2)]` is emitted with zero (not strictly
positive) signed area. -/
theorem c3_counterexample :
    triangulate_polygon ([⟨0,0,0⟩, ⟨1,0,1⟩, ⟨2,0,2⟩] : List Vec3) = [0, 1, 2] ∧
    ¬ 0 < crossY
        (vget (workingVertices ([⟨0,0,0⟩, ⟨1,0,1⟩, ⟨2,0,2⟩] : List Vec3))
          (nget (triangulate_polygon ([⟨0,0,0⟩, ⟨1,0,1⟩, ⟨2,0,2⟩] : List Vec3)) 0))
        (vget (workingVertices ([⟨0,0,0⟩, ⟨1,0,1⟩, ⟨2,0,2⟩] : List Vec3))
          (nget (triangulate_polygon ([⟨0,0,0⟩, ⟨1,0,1⟩, ⟨2,0,2⟩] : List Vec3)) 1))
        (vget (workingVertices ([⟨0,0,0⟩, ⟨1,0,1⟩, ⟨2,0,2⟩] : List Vec3))
          (nget (triangulate_polygon ([⟨0,0,0⟩, ⟨1,0,1⟩, ⟨2,0,2⟩] : List Vec3)) 2)) := by
  constructor <;> decide

/-- C10: a Polygon feature whose coordinates value is an empty rings
list makes the emission pass raise an uncaught IndexError at the
`rings[0]` indexing, while a Polygon whose single ring has fewer than 3
points is skipped without error (run succeeds, no mesh emitted). -/
theorem c10_empty_rings_crash :
    create_stage_objects projXZ [⟨some (.polygon [])⟩] =
      .error "IndexError: list index out of range" ∧
    (create_stage_objects projXZ [⟨some (.polygon [[(0, 0), (1, 1)]])⟩]).map
        StageResult.meshes = .ok [] := by
  constructor <;> decide

/-- The ear loop emits whole index triples: its output length is a
multiple of three. -/
theorem earLoop_len_mod3 (vertices : List Vec3) :
    ∀ fuel remaining, (earLoop vertices fuel remaining).1.length % 3 = 0 := by
  intro fuel
  induction fuel with
  | zero =>
    intro remaining
    rw [earLoop]
    simp
  | succ f ih =>
    intro remaining
    by_cases hlen : 3 < remaining.length
    · cases hfind : remaining.find? (fun j => is_valid_ear vertices remaining j) with
      | none =>
        rw [earLoop_none _ hfind]
        simp
      | some i =>
        rw [earLoop_succ_some f hlen hfind]
        have := ih (remaining.erase i)
        simp only [List.length_cons]
        omega
    · rw [earLoop_stop _ hlen]
      simp

/-- Every index the ear loop emits or retains comes from the initial
`remaining` pool, so it respects any bound on that pool. -/
theorem earLoop_mem_bound {N : ℕ} (vertices : List Vec3) :
    ∀ fuel remaining, (∀ j ∈ remaining, j < N) →
      (∀ j ∈ (earLoop vertices fuel remaining).1, j < N) ∧
      (∀ j ∈ (earLoop vertices fuel remaining).2, j < N) := by
  intro fuel
  induction fuel with
  | zero =>
    intro remaining h
    rw [earLoop]
    exact ⟨by simp, h⟩
  | succ f ih =>
    intro remaining h
    by_cases hlen : 3 < remaining.length
    · cases hfind : remaining.find? (fun j => is_valid_ear vertices remaining j) with
      | none =>
        rw [earLoop_none _ hfind]
        exact ⟨by simp, h⟩
      | some i =>
        rw [earLoop_succ_some f hlen hfind]
        have hne : remaining ≠ [] := by
          intro he
          rw [he] at hlen
          simp at hlen
        have hi : i ∈ remaining := List.mem_of_find?_eq_some hfind
        obtain ⟨ih1, ih2⟩ := ih (remaining.erase i)
          (fun j hj => h j (List.mem_of_mem_erase hj))
        refine ⟨?_, ih2⟩
        intro j hj
        rcases List.mem_cons.mp hj with rfl | hj
        · exact h _ (prevOf_mem hne i)
        rcases List.mem_cons.mp hj with rfl | hj
        · exact h _ hi
        rcases List.mem_cons.mp hj with rfl | hj
        · exact h _ (nextOf_mem hne i)
        exact ih1 j hj
    · rw [earLoop_stop _ hlen]
      exact ⟨by simp, h⟩

/-- Indexing three positions past a three-element head skips the head. -/
theorem nget_cons3 (a b c : ℕ) (l : List ℕ) (k : ℕ) :
    nget (a :: b :: c :: l) (k + 3) = nget l k := rfl

/-- Reading inside the left part of an appended index list. -/
theorem nget_append_left {l l2 : List ℕ} {k : ℕ} (h : k < l.length) :
    nget (l ++ l2) k = nget l k := by
  unfold nget
  exact List.getD_append _ _ _ _ h

/-- Every triple the ear loop emits passed the ear test, so its
`crossY` is strictly positive. -/
theorem earLoop_triples_pos (vertices : List Vec3) :
    ∀ fuel remaining t,
      3 * t + 2 < (earLoop vertices fuel remaining).1.length →
      0 < crossY (vget vertices (nget (earLoop vertices fuel remaining).1 (3 * t)))
                 (vget vertices (nget (earLoop vertices fuel remaining).1 (3 * t + 1)))
                 (vget vertices (nget (earLoop vertices fuel remaining).1 (3 * t + 2))) := by
  intro fuel
  induction fuel with
  | zero =>
    intro remaining t ht
    rw [earLoop] at ht
    simp at ht
  | succ f ih =>
    intro remaining t ht
    by_cases hlen : 3 < remaining.length
    · cases hfind : remaining.find? (fun j => is_valid_ear vertices remaining j) with
      | none =>
        rw [earLoop_none _ hfind] at ht
        simp at ht
      | some i =>
        rw [earLoop_succ_some f hlen hfind] at ht ⊢
        cases t with
        | zero =>
          simp only [Nat.mul_zero, Nat.zero_add, nget, List.getD_cons_zero,
            List.getD_cons_succ]
          exact is_valid_ear_pos (List.find?_some hfind)
        | succ u =>
          have e1 : 3 * (u + 1) = 3 * u + 3 := by ring
          have e2 : 3 * (u + 1) + 1 = 3 * u + 1 + 3 := by ring
          have e3 : 3 * (u + 1) + 2 = 3 * u + 2 + 3 := by ring
          rw [e2, e3, e1, nget_cons3, nget_cons3, nget_cons3]
          apply ih
          simp only [List.length_cons] at ht
          omega
    · rw [earLoop_stop _ hlen] at ht
      simp at ht

/-- C4: for every input ring the triangulator's output length is a
multiple of three, the working (de-duplicated) vertex array is no longer
than the ring as passed in, and every emitted index is a valid index
into the working vertex array and hence into the original point
array. -/
theorem c4_indices_in_range (points : List Vec3) :
    (triangulate_polygon points).length % 3 = 0 ∧
    (workingVertices points).length ≤ points.length ∧
    (∀ j ∈ triangulate_polygon points, j < (workingVertices points).length) ∧
    (∀ j ∈ triangulate_polygon points, j < points.length) := by
  have hwv := wv_len points
  have hmain : (triangulate_polygon points).length % 3 = 0 ∧
      ∀ j ∈ triangulate_polygon points, j < (workingVertices points).length := by
    unfold triangulate_polygon
    split_ifs with h1 h2 h3
    · simp
    · simp
    · have hbound := earLoop_mem_bound (N := (workingVertices points).length)
        (workingVertices points) (workingVertices points).length
        (List.range (workingVertices points).length)
        (fun j hj => List.mem_range.mp hj)
      have hmod := earLoop_len_mod3 (workingVertices points)
        (workingVertices points).length (List.range (workingVertices points).length)
      constructor
      · rw [List.length_append, h3]
        omega
      · intro j hj
        rcases List.mem_append.mp hj with hj | hj
        · exact hbound.1 j hj
        · exact hbound.2 j hj
    · have hbound := earLoop_mem_bound (N := (workingVertices points).length)
        (workingVertices points) (workingVertices points).length
        (List.range (workingVertices points).length)
        (fun j hj => List.mem_range.mp hj)
      exact ⟨earLoop_len_mod3 _ _ _, hbound.1⟩
  exact ⟨hmain.1, hwv, hmain.2, fun j hj => lt_of_lt_of_le (hmain.2 j hj) hwv⟩

/-- C4 witness: index 3 emitted for the unit square is within the
4-element working vertex array. -/
theorem c4_witness :
    3 < (workingVertices ([⟨0,0,0⟩, ⟨0,0,1⟩, ⟨1,0,1⟩, ⟨1,0,0⟩] : List Vec3)).length :=
  (c4_indices_in_range ([⟨0,0,0⟩, ⟨0,0,1⟩, ⟨1,0,1⟩, ⟨1,0,0⟩] : List Vec3)).2.2.1
    3 (by decide)

/-- No vertex of a ring whose points are pairwise collinear in the X/Z
plane can pass the ear test: its orientation cross product vanishes. -/
theorem is_valid_ear_collinear {vertices : List Vec3} {remaining : List ℕ} {i : ℕ}
    (hcol : ∀ p ∈ vertices, ∀ q ∈ vertices, ∀ r ∈ vertices, crossY p q r = 0)
    (hmem : ∀ j ∈ remaining, j < vertices.length)
    (hi : i ∈ remaining) :
    is_valid_ear vertices remaining i = false := by
  unfold is_valid_ear
  by_cases h1 : remaining.length < 3
  · rw [if_pos h1]
  · rw [if_neg h1]
    have hne : remaining ≠ [] := by
      intro he
      rw [he] at hi
      cases hi
    have hp := hmem _ (prevOf_mem hne i)
    have hc := hmem _ hi
    have hn := hmem _ (nextOf_mem hne i)
    rw [if_pos ?_]
    rw [cross3_y_eq]
    exact le_of_eq (hcol _ (vget_mem hp) _ (vget_mem hc) _ (vget_mem hn))

/-- C2 (amended): a ring of pairwise collinear points yields an empty
TriangleIndexList when the working vertex array after closing-point
removal has at least 4 vertices (no valid ear is ever found); but when
exactly 3 working vertices remain the triple `[0, 1, 2]` is emitted
unconditionally — with no ear test — so a collinear 3-vertex ring
yields one degenerate triangle, not the empty list. -/
theorem c2_collinear_amended :
    (∀ points : List Vec3,
        (∀ p ∈ points, ∀ q ∈ points, ∀ r ∈ points, crossY p q r = 0) →
        4 ≤ (workingVertices points).length →
        triangulate_polygon points = []) ∧
    (∀ points : List Vec3, (workingVertices points).length = 3 →
        triangulate_polygon points = [0, 1, 2]) := by
  constructor
  · intro points hcol h4
    have hpne : points ≠ [] := by
      intro he
      rw [he] at h4
      simp [workingVertices] at h4
    have hlen3 : ¬ points.length < 3 := by
      have := wv_len points
      omega
    have hcolv : ∀ p ∈ workingVertices points, ∀ q ∈ workingVertices points,
        ∀ r ∈ workingVertices points, crossY p q r = 0 :=
      fun p hp q hq r hr =>
        hcol p (wv_subset hpne hp) q (wv_subset hpne hq) r (wv_subset hpne hr)
    have hfind : (List.range (workingVertices points).length).find?
        (fun j => is_valid_ear (workingVertices points)
          (List.range (workingVertices points).length) j) = none := by
      rw [List.find?_eq_none]
      intro i hi
      rw [is_valid_ear_collinear hcolv (fun j hj => List.mem_range.mp hj) hi]
      simp
    unfold triangulate_polygon
    rw [if_neg hlen3, if_neg (by omega)]
    rw [earLoop_none _ hfind]
    rw [if_neg (by simp [List.length_range]; omega)]
  · intro points h3
    have hlen3 : ¬ points.length < 3 := by
      have := wv_len points
      omega
    unfold triangulate_polygon
    rw [if_neg hlen3, if_neg (by omega)]
    rw [earLoop_stop _ (by simp [List.length_range]; omega)]
    rw [if_pos (by simp [List.length_range]; omega)]
    rw [h3]
    rfl

/-- C2 witness: a collinear open ring of four vertices triangulates to
the empty list. -/
theorem c2_witness :
    triangulate_polygon ([⟨0,0,0⟩, ⟨1,0,1⟩, ⟨2,0,2⟩, ⟨3,0,3⟩] : List Vec3) = [] :=
  c2_collinear_amended.1 ([⟨0,0,0⟩, ⟨1,0,1⟩, ⟨2,0,2⟩, ⟨3,0,3⟩] : List Vec3)
    (by decide) (by decide)

/-- C3 (amended): every consecutive index triple of the triangulator's
output except possibly the final one was emitted by the main loop after
passing the ear test, so it has strictly positive signed area (positive
`crossY`); the final triple, emitted unconditionally when exactly three
vertices remain, carries no such guarantee. -/
theorem c3_loop_triangles_ccw (points : List Vec3) (t : ℕ)
    (ht : 3 * t + 5 < (triangulate_polygon points).length) :
    0 < crossY
        (vget (workingVertices points) (nget (triangulate_polygon points) (3 * t)))
        (vget (workingVertices points) (nget (triangulate_polygon points) (3 * t + 1)))
        (vget (workingVertices points) (nget (triangulate_polygon points) (3 * t + 2))) := by
  unfold triangulate_polygon at ht ⊢
  split_ifs at ht ⊢ with h1 h2 h3
  · simp at ht
  · simp at ht
  · have hlt : 3 * t + 2 <
        (earLoop (workingVertices points) (workingVertices points).length
          (List.range (workingVertices points).length)).1.length := by
      rw [List.length_append, h3] at ht
      omega
    rw [nget_append_left (show 3 * t <
          (earLoop (workingVertices points) (workingVertices points).length
            (List.range (workingVertices points).length)).1.length by omega),
        nget_append_left (show 3 * t + 1 <
          (earLoop (workingVertices points) (workingVertices points).length
            (List.range (workingVertices points).length)).1.length by omega),
        nget_append_left hlt]
    exact earLoop_triples_pos _ _ _ t hlt
  · exact earLoop_triples_pos _ _ _ t (by omega)

/-- C3 witness: the first output triple of the unit square has strictly
positive signed area. -/
theorem c3_witness :
    3 * 0 + 5 < (triangulate_polygon ([⟨0,0,0⟩, ⟨0,0,1⟩, ⟨1,0,1⟩, ⟨1,0,0⟩] : List Vec3)).length ∧
    0 < crossY
        (vget (workingVertices ([⟨0,0,0⟩, ⟨0,0,1⟩, ⟨1,0,1⟩, ⟨1,0,0⟩] : List Vec3))
          (nget (triangulate_polygon ([⟨0,0,0⟩, ⟨0,0,1⟩, ⟨1,0,1⟩, ⟨1,0,0⟩] : List Vec3)) (3 * 0)))
        (vget (workingVertices ([⟨0,0,0⟩, ⟨0,0,1⟩, ⟨1,0,1⟩, ⟨1,0,0⟩] : List Vec3))
          (nget (triangulate_polygon ([⟨0,0,0⟩, ⟨0,0,1⟩, ⟨1,0,1⟩, ⟨1,0,0⟩] : List Vec3)) (3 * 0 + 1)))
        (vget (workingVertices ([⟨0,0,0⟩, ⟨0,0,1⟩, ⟨1,0,1⟩, ⟨1,0,0⟩] : List Vec3))
          (nget (triangulate_polygon ([⟨0,0,0⟩, ⟨0,0,1⟩, ⟨1,0,1⟩, ⟨1,0,0⟩] : List Vec3)) (3 * 0 + 2))) :=
  ⟨by decide, c3_loop_triangles_ccw ([⟨0,0,0⟩, ⟨0,0,1⟩, ⟨1,0,1⟩, ⟨1,0,0⟩] : List Vec3) 0 (by decide)⟩

/-- The sign-based point-in-triangle test rejects a point with one
strictly negative and one strictly positive half-plane sign. -/
theorem point_in_triangle_eq_false {p a b c : Vec3}
    (h1 : signT p a b < 0) (h3 : 0 < signT p c a) :
    point_in_triangle p a b c = false := by
  unfold point_in_triangle
  rw [decide_eq_true h1, decide_eq_true h3]
  simp

/-- `indexOf` of the first element of a `range'`. -/
theorem range'_indexOf_self (k m : ℕ) (hm : 0 < m) :
    (List.range' k m).indexOf k = 0 := by
  obtain ⟨u, rfl⟩ : ∃ u, m = u + 1 := ⟨m - 1, by omega⟩
  rw [List.range'_succ]
  exact List.indexOf_cons_self _ _

/-- Reading position `t` of `range' k m`. -/
theorem nget_range' {k m t : ℕ} (h : t < m) : nget (List.range' k m) t = k + t := by
  unfold nget
  rw [List.getD_eq_getElem _ _ (by simpa using h), List.getElem_range']
  omega

/-- The cyclic predecessor of the head of `range' k m` is its last
element. -/
theorem prevOf_range' {k m : ℕ} (hm : 1 ≤ m) :
    prevOf (List.range' k m) k = k + m - 1 := by
  unfold prevOf
  rw [List.length_range', range'_indexOf_self k m (by omega), Nat.zero_add,
    Nat.mod_eq_of_lt (by omega), nget_range' (by omega)]
  omega

/-- The cyclic successor of the head of `range' k m` is its second
element. -/
theorem nextOf_range' {k m : ℕ} (hm : 2 ≤ m) :
    nextOf (List.range' k m) k = k + 1 := by
  unfold nextOf
  rw [List.length_range', range'_indexOf_self k m (by omega), Nat.zero_add,
    Nat.mod_eq_of_lt (by omega)]
  exact nget_range' (by omega)

/-- `range' k m` as a cons cell when `m` is positive. -/
theorem range'_cons_eq {k m : ℕ} (hm : 0 < m) :
    List.range' k m = k :: List.range' (k + 1) (m - 1) := by
  obtain ⟨u, rfl⟩ : ∃ u, m = u + 1 := ⟨m - 1, by omega⟩
  rw [List.range'_succ]
  simp

/-- In a strictly convex counter-clockwise vertex list (every ordered
index triple has positive `crossY`), the head of the remaining sublist
`range' k m` always passes the ear test. -/
theorem ear_valid_convex {vertices : List Vec3}
    (H : ∀ c, c < vertices.length → ∀ b, b < c → ∀ a, a < b →
        0 < crossY (vget vertices a) (vget vertices b) (vget vertices c))
    {m k : ℕ} (h4 : 4 ≤ m) (hkm : k + m = vertices.length) :
    is_valid_ear vertices (List.range' k m) k = true := by
  have hprev := prevOf_range' (k := k) (m := m) (by omega)
  have hnext := nextOf_range' (k := k) (m := m) (by omega)
  unfold is_valid_ear
  rw [hprev, hnext, List.length_range', if_neg (by omega), cross3_y_eq]
  have hpos : 0 < crossY (vget vertices (k + m - 1)) (vget vertices k)
      (vget vertices (k + 1)) := by
    have e := crossY_cyc (vget vertices (k + m - 1)) (vget vertices k)
      (vget vertices (k + 1))
    have h0 := H (k + m - 1) (by omega) (k + 1) (by omega) k (by omega)
    linarith
  rw [if_neg (not_le.mpr hpos), List.all_eq_true]
  intro j hj
  rw [List.mem_range'_1] at hj
  by_cases hcase : j = k + m - 1 ∨ j = k ∨ j = k + 1
  · rw [if_pos hcase]
  · rw [if_neg hcase]
    push_neg at hcase
    obtain ⟨hj1, hj2, hj3⟩ := hcase
    have hfalse : point_in_triangle (vget vertices j) (vget vertices (k + m - 1))
        (vget vertices k) (vget vertices (k + 1)) = false := by
      apply point_in_triangle_eq_false
      · rw [signT_eq_neg_crossY]
        have e := crossY_cyc (vget vertices k) (vget vertices j)
          (vget vertices (k + m - 1))
        have h0 := H (k + m - 1) (by omega) j (by omega) k (by omega)
        linarith
      · rw [signT_eq_neg_crossY]
        have e1 := crossY_cyc (vget vertices j) (vget vertices (k + 1))
          (vget vertices (k + m - 1))
        have e2 := crossY_swap_right (vget vertices (k + 1)) (vget vertices j)
          (vget vertices (k + m - 1))
        have h0 := H (k + m - 1) (by omega) j (by omega) (k + 1) (by omega)
        linarith
    rw [hfalse]
    rfl

/-- Under the strict convexity hypothesis the ear loop removes the head
of `range' k m` at every step, emits `m - 3` triples, and stops with the
last three indices. -/
theorem earLoop_convex {vertices : List Vec3}
    (H : ∀ c, c < vertices.length → ∀ b, b < c → ∀ a, a < b →
        0 < crossY (vget vertices a) (vget vertices b) (vget vertices c)) :
    ∀ fuel m k, 3 ≤ m → k + m = vertices.length → m ≤ fuel + 3 →
      (earLoop vertices fuel (List.range' k m)).1.length = 3 * (m - 3) ∧
      (earLoop vertices fuel (List.range' k m)).2 =
        List.range' (vertices.length - 3) 3 := by
  intro fuel
  induction fuel with
  | zero =>
    intro m k h3 hkm hfuel
    have hm : m = 3 := by omega
    subst hm
    rw [earLoop_stop _ (by rw [List.length_range']; omega)]
    have hk : k = vertices.length - 3 := by omega
    rw [hk]
    exact ⟨rfl, rfl⟩
  | succ f ih =>
    intro m k h3 hkm hfuel
    by_cases hm : 3 < m
    · have hcons := range'_cons_eq (k := k) (m := m) (by omega)
      have hear : is_valid_ear vertices (List.range' k m) k = true :=
        ear_valid_convex H (by omega) hkm
      have hfind : (List.range' k m).find?
          (fun j => is_valid_ear vertices (List.range' k m) j) = some k := by
        rw [hcons] at hear ⊢
        exact List.find?_cons_of_pos _ hear
      have herase : (List.range' k m).erase k = List.range' (k + 1) (m - 1) := by
        rw [hcons, List.erase_cons_head]
      rw [earLoop_succ_some f (by rw [List.length_range']; omega) hfind, herase]
      obtain ⟨ih1, ih2⟩ := ih (m - 1) (k + 1) (by omega) (by omega) (by omega)
      refine ⟨?_, ih2⟩
      simp only [List.length_cons, ih1]
      omega
    · have hm3 : m = 3 := by omega
      subst hm3
      rw [earLoop_stop _ (by rw [List.length_range']; omega)]
      have hk : k = vertices.length - 3 := by omega
      rw [hk]
      exact ⟨rfl, rfl⟩

/-- C5: a strictly convex, counter-clockwise ring (every ordered vertex
triple turns left: positive `crossY`) of n ≥ 3 distinct vertices
triangulates to exactly n − 2 triangles, that is, an index list of
length 3(n − 2). -/
theorem c5_convex_count (points : List Vec3) (h3 : 3 ≤ points.length)
    (H : ∀ c, c < points.length → ∀ b, b < c → ∀ a, a < b →
        0 < crossY (vget points a) (vget points b) (vget points c)) :
    (triangulate_polygon points).length = 3 * (points.length - 2) := by
  have hne : vget points 0 ≠ vget points (points.length - 1) := by
    intro he
    have hpos := H (points.length - 1) (by omega) 1 (by omega) 0 (by omega)
    rw [← he, crossY_degen] at hpos
    exact lt_irrefl 0 hpos
  have hwv : workingVertices points = points := by
    unfold workingVertices
    rw [if_pos hne, List.dropLast_concat]
  unfold triangulate_polygon
  rw [hwv, if_neg (by omega), if_neg (by omega), List.range_eq_range']
  obtain ⟨hl1, hl2⟩ := earLoop_convex H points.length points.length 0
    (by omega) (by omega) (by omega)
  rw [if_pos (by rw [hl2, List.length_range'])]
  rw [List.length_append, hl1, hl2, List.length_range']
  omega

/-- C5 witness: the counter-clockwise unit square produces
3 · (4 − 2) = 6 indices. -/
theorem c5_witness :
    (triangulate_polygon ([⟨0,0,0⟩, ⟨0,0,1⟩, ⟨1,0,1⟩, ⟨1,0,0⟩] : List Vec3)).length =
      3 * (([⟨0,0,0⟩, ⟨0,0,1⟩, ⟨1,0,1⟩, ⟨1,0,0⟩] : List Vec3).length - 2) :=
  c5_convex_count ([⟨0,0,0⟩, ⟨0,0,1⟩, ⟨1,0,1⟩, ⟨1,0,0⟩] : List Vec3)
    (by decide) (by decide)

/-- One fold step takes an `axisOk` axis to a finite, ordered axis. -/
theorem axis_step {mn mx : EFloat} (h : axisOk mn mx) (x : ℚ) :
    axisFin (EFloat.pymin mn (.fin x)) (EFloat.pymax mx (.fin x)) := by
  rcases h with ⟨h1, h2⟩ | ⟨a, b, h1, h2, hab⟩ <;> subst h1 <;> subst h2
  · exact ⟨x, x, rfl, rfl, le_refl x⟩
  · unfold EFloat.pymin EFloat.pymax EFloat.lt
    by_cases hxa : x < a <;> by_cases hbx : b < x
    · rw [if_pos (decide_eq_true hxa), if_pos (decide_eq_true hbx)]
      exact ⟨x, x, rfl, rfl, le_refl x⟩
    · rw [if_pos (decide_eq_true hxa), if_neg (by simpa using hbx)]
      exact ⟨x, b, rfl, rfl, by linarith⟩
    · rw [if_neg (by simpa using hxa), if_pos (decide_eq_true hbx)]
      exact ⟨a, x, rfl, rfl, by linarith⟩
    · rw [if_neg (by simpa using hxa), if_neg (by simpa using hbx)]
      exact ⟨a, b, rfl, rfl, hab⟩

/-- A finite ordered axis satisfies the general axis invariant. -/
theorem stFin_ok {st : GeoBounds} (h : stFin st) : stOk st := ⟨Or.inr h.1, Or.inr h.2⟩

/-- One coordinate fold step of `_calculate_bounds` produces finite,
ordered bounds from any `stOk` state. -/
theorem boundsStep_fin {st : GeoBounds} (h : stOk st) (c : Coord2) :
    stFin (boundsStep st c) :=
  ⟨axis_step h.1 c.1, axis_step h.2 c.2⟩

/-- The coordinate fold preserves the bounds invariant. -/
theorem foldCoords_ok {st : GeoBounds} (h : stOk st) (cs : List Coord2) :
    stOk (foldCoords st cs) := by
  induction cs generalizing st with
  | nil => exact h
  | cons c cs ih => exact ih (stFin_ok (boundsStep_fin h c))

/-- The coordinate fold preserves finiteness of the bounds. -/
theorem foldCoords_fin {st : GeoBounds} (h : stFin st) (cs : List Coord2) :
    stFin (foldCoords st cs) := by
  induction cs generalizing st with
  | nil => exact h
  | cons c cs ih => exact ih (boundsStep_fin (stFin_ok h) c)

/-- Folding at least one coordinate lands in the finite, ordered
state. -/
theorem foldCoords_fin_of_ne {st : GeoBounds} (h : stOk st) {cs : List Coord2}
    (hne : cs ≠ []) : stFin (foldCoords st cs) := by
  cases cs with
  | nil => exact absurd rfl hne
  | cons c cs => exact foldCoords_fin (boundsStep_fin h c) cs

/-- The per-feature bounds fold preserves finiteness. -/
theorem boundsPass_fin {b : GeoBounds} :
    ∀ (fs : List Feature) (st : GeoBounds), stFin st →
      boundsPass fs st = .ok b → stFin b := by
  intro fs
  induction fs with
  | nil =>
    intro st h hp
    simp only [boundsPass] at hp
    exact (Except.ok.inj hp) ▸ h
  | cons g fs ih =>
    intro st h hp
    unfold boundsPass at hp
    cases hg : get_feature_coordinates g with
    | error e =>
      rw [hg] at hp
      cases hp
    | ok cs =>
      rw [hg] at hp
      exact ih _ (foldCoords_fin h cs) hp

/-- The per-feature bounds fold preserves the bounds invariant. -/
theorem boundsPass_ok {b : GeoBounds} :
    ∀ (fs : List Feature) (st : GeoBounds), stOk st →
      boundsPass fs st = .ok b → stOk b := by
  intro fs
  induction fs with
  | nil =>
    intro st h hp
    simp only [boundsPass] at hp
    exact (Except.ok.inj hp) ▸ h
  | cons g fs ih =>
    intro st h hp
    unfold boundsPass at hp
    cases hg : get_feature_coordinates g with
    | error e =>
      rw [hg] at hp
      cases hp
    | ok cs =>
      rw [hg] at hp
      exact ih _ (foldCoords_ok h cs) hp

/-- A successful bounds fold over a feature list in which some feature
contributes at least one coordinate ends in the finite, ordered
state. -/
theorem boundsPass_fin_of_witness {b : GeoBounds} :
    ∀ (fs : List Feature) (st : GeoBounds), stOk st →
      boundsPass fs st = .ok b →
      (∃ f ∈ fs, ∃ cs, get_feature_coordinates f = .ok cs ∧ cs ≠ []) →
      stFin b := by
  intro fs
  induction fs with
  | nil =>
    intro st h hp hw
    obtain ⟨f, hf, _⟩ := hw
    cases hf
  | cons g fs ih =>
    intro st h hp hw
    unfold boundsPass at hp
    cases hg : get_feature_coordinates g with
    | error e =>
      rw [hg] at hp
      cases hp
    | ok cs0 =>
      rw [hg] at hp
      obtain ⟨f, hf, cs, hcs, hne⟩ := hw
      rcases List.mem_cons.mp hf with rfl | hf2
      · rw [hg] at hcs
        have hcs0 : cs0 = cs := Except.ok.inj hcs
        subst hcs0
        exact boundsPass_fin _ _ (foldCoords_fin_of_ne h hne) hp
      · exact ih _ (foldCoords_ok h cs0) hp ⟨f, hf2, cs, hcs, hne⟩

/-- C1 (amended): for every document produced by a successful load whose
bounds are present, the bounds satisfy min.x ≤ max.x and min.y ≤ max.y
provided at least one feature contributed at least one extractable
coordinate.  (When the non-empty feature list contributes zero
extractable coordinates the fold stays at its (+inf, +inf) / (-inf,
-inf) seeds, which violate the invariant — see the counterexample.) -/
theorem c1_bounds_invariant (data : ParsedJSON) (doc : Document) (b : GeoBounds)
    (hload : load_from_parsed data = some doc)
    (hb : doc.bounds = some b)
    (hw : ∃ f ∈ doc.features, ∃ cs, get_feature_coordinates f = .ok cs ∧ cs ≠ []) :
    EFloat.le b.minX b.maxX = true ∧ EFloat.le b.minY b.maxY = true := by
  have hlf : ∃ fs, loadFeatures fs = some doc := by
    cases data with
    | otherType t => exact absurd hload (by simp [load_from_parsed])
    | feature f => exact ⟨[f], hload⟩
    | featureCollection fs => exact ⟨fs, hload⟩
  obtain ⟨fs, hlf⟩ := hlf
  unfold loadFeatures at hlf
  cases hcb : calculate_bounds fs with
  | error e =>
    rw [hcb] at hlf
    cases hlf
  | ok ob =>
    rw [hcb] at hlf
    have hdoc : (⟨fs, ob⟩ : Document) = doc := Option.some.inj hlf
    have hfeat : doc.features = fs := by rw [← hdoc]
    have hbnd : doc.bounds = ob := by rw [← hdoc]
    rw [hbnd] at hb
    subst hb
    rw [hfeat] at hw
    unfold calculate_bounds at hcb
    by_cases hfs : fs = []
    · rw [if_pos hfs] at hcb
      exact absurd (Except.ok.inj hcb) (by simp)
    · rw [if_neg hfs] at hcb
      cases hbp : boundsPass fs seedBounds with
      | error e =>
        rw [hbp] at hcb
        simp [Except.map] at hcb
      | ok b2 =>
        rw [hbp] at hcb
        simp only [Except.map] at hcb
        have hb2 : b2 = b := Option.some.inj (Except.ok.inj hcb)
        subst hb2
        have hseed : stOk seedBounds := ⟨Or.inl ⟨rfl, rfl⟩, Or.inl ⟨rfl, rfl⟩⟩
        obtain ⟨⟨a1, b1, e1, e2, hle1⟩, ⟨a2, b2, e3, e4, hle2⟩⟩ :=
          boundsPass_fin_of_witness fs seedBounds hseed hbp hw
        constructor
        · rw [e1, e2]
          exact decide_eq_true hle1
        · rw [e3, e4]
          exact decide_eq_true hle2

/-- C1 witness: loading a single Point feature at (1, 2) produces bounds
(1, 2) / (1, 2), which satisfy the invariant. -/
theorem c1_witness :
    EFloat.le (EFloat.fin 1) (EFloat.fin 1) = true ∧
    EFloat.le (EFloat.fin 2) (EFloat.fin 2) = true :=
  c1_bounds_invariant (.featureCollection [⟨some (.point (1, 2))⟩])
    ⟨[⟨some (.point (1, 2))⟩], some ⟨.fin 1, .fin 2, .fin 1, .fin 2⟩⟩
    ⟨.fin 1, .fin 2, .fin 1, .fin 2⟩ (by decide) rfl
    ⟨⟨some (.point (1, 2))⟩, by decide, [(1, 2)], rfl, by decide⟩

/-- C1 counterexample: a successfully loaded document whose single
feature is a MultiPolygon (zero extractable coordinates) has present
bounds equal to the (+inf, +inf) / (-inf, -inf) seeds, and these violate
min.x ≤ max.x. -/
theorem c1_counterexample :
    load_from_parsed (.featureCollection [⟨some (.multiPolygon [])⟩]) =
      some ⟨[⟨some (.multiPolygon [])⟩], some seedBounds⟩ ∧
    EFloat.le seedBounds.minX seedBounds.maxX = false := by
  constructor <;> decide

/-- The only exception `_get_feature_coordinates` can raise is the
KeyError for a missing "geometry" key. -/
theorem get_feature_coordinates_error {f : Feature} {e : String}
    (h : get_feature_coordinates f = .error e) : e = "KeyError: geometry" := by
  unfold get_feature_coordinates at h
  cases hg : f.geometry with
  | none =>
    rw [hg] at h
    exact (Except.error.inj h).symm
  | some geo =>
    rw [hg] at h
    cases geo <;> simp at h

/-- A feature list containing a feature without the "geometry" key makes
the bounds fold raise KeyError. -/
theorem boundsPass_error_of_missing :
    ∀ (fs : List Feature) (st : GeoBounds), (∃ f ∈ fs, f.geometry = none) →
      boundsPass fs st = .error "KeyError: geometry" := by
  intro fs
  induction fs with
  | nil =>
    intro st hw
    obtain ⟨f, hf, _⟩ := hw
    cases hf
  | cons g fs ih =>
    intro st hw
    obtain ⟨f, hf, hnone⟩ := hw
    unfold boundsPass
    rcases List.mem_cons.mp hf with rfl | hf2
    · rw [show get_feature_coordinates f = .error "KeyError: geometry" by
        unfold get_feature_coordinates
        rw [hnone]]
    · cases hg : get_feature_coordinates g with
      | error e =>
        rw [get_feature_coordinates_error hg]
      | ok cs =>
        exact ih _ ⟨f, hf2, hnone⟩

/-- A feature without the "geometry" key leaves the first emission pass
untouched wherever it sits in the feature list. -/
theorem cartPass_skip {proj : ℚ → ℚ → Vec3} {f : Feature} (hf : f.geometry = none) :
    ∀ (fs1 fs2 : List Feature) (st : CartBounds),
      cartPass proj (fs1 ++ f :: fs2) st = cartPass proj (fs1 ++ fs2) st := by
  have hcart : ∀ st, cartFoldFeature proj st f = .ok st := by
    intro st
    unfold cartFoldFeature
    rw [hf]
  intro fs1
  induction fs1 with
  | nil =>
    intro fs2 st
    show cartPass proj (f :: fs2) st = cartPass proj fs2 st
    conv_lhs => rw [cartPass]
    rw [hcart st]
  | cons g gs ih =>
    intro fs2 st
    show cartPass proj (g :: (gs ++ f :: fs2)) st =
      cartPass proj (g :: (gs ++ fs2)) st
    conv_lhs => rw [cartPass]
    conv_rhs => rw [cartPass]
    cases hg : cartFoldFeature proj st g with
    | error e => rfl
    | ok st2 => exact ih fs2 st2

/-- A feature without the "geometry" key contributes no mesh and leaves
the second emission pass untouched wherever it sits in the feature
list. -/
theorem meshPass_skip {proj : ℚ → ℚ → Vec3} {f : Feature} (hf : f.geometry = none) :
    ∀ (fs1 fs2 : List Feature) (acc : List MeshData),
      meshPass proj (fs1 ++ f :: fs2) acc = meshPass proj (fs1 ++ fs2) acc := by
  have hproc : processFeature proj f = .ok [] := by
    unfold processFeature
    rw [hf]
  intro fs1
  induction fs1 with
  | nil =>
    intro fs2 acc
    show meshPass proj (f :: fs2) acc = meshPass proj fs2 acc
    conv_lhs => rw [meshPass]
    rw [hproc]
    show meshPass proj fs2 (acc ++ []) = meshPass proj fs2 acc
    rw [List.append_nil]
  | cons g gs ih =>
    intro fs2 acc
    show meshPass proj (g :: (gs ++ f :: fs2)) acc =
      meshPass proj (g :: (gs ++ fs2)) acc
    conv_lhs => rw [meshPass]
    conv_rhs => rw [meshPass]
    cases hg : processFeature proj g with
    | error e => rfl
    | ok ms => exact ih fs2 (acc ++ ms)

/-- C7: a feature entry lacking the "geometry" key makes the load abort
(bounds computation raises KeyError, `load_from_file` returns failure,
no document is produced), while the same feature during mesh emission is
silently skipped — the remaining features are processed exactly as if
the offending feature were absent. -/
theorem c7_missing_geometry_asymmetry (fs1 fs2 : List Feature) (f : Feature)
    (proj : ℚ → ℚ → Vec3) (hf : f.geometry = none) :
    load_from_parsed (.featureCollection (fs1 ++ f :: fs2)) = none ∧
    create_stage_objects proj (fs1 ++ f :: fs2) =
      create_stage_objects proj (fs1 ++ fs2) := by
  constructor
  · have hne : fs1 ++ f :: fs2 ≠ [] := by simp
    have herr := boundsPass_error_of_missing (fs1 ++ f :: fs2) seedBounds
      ⟨f, by simp, hf⟩
    have hcb : calculate_bounds (fs1 ++ f :: fs2) = .error "KeyError: geometry" := by
      unfold calculate_bounds
      rw [if_neg hne, herr]
      rfl
    simp only [load_from_parsed]
    unfold loadFeatures
    rw [hcb]
  · unfold create_stage_objects
    rw [cartPass_skip hf fs1 fs2 cartInit, meshPass_skip hf fs1 fs2 []]

/-- C7 witness: a three-feature collection whose middle feature lacks
"geometry" fails to load, while emission equals the emission of the
two-feature collection with that feature removed. -/
theorem c7_witness :
    load_from_parsed (.featureCollection
      [⟨some (.point (0, 0))⟩, ⟨none⟩, ⟨some (.point (1, 1))⟩]) = none ∧
    create_stage_objects projXZ
        [⟨some (.point (0, 0))⟩, ⟨none⟩, ⟨some (.point (1, 1))⟩] =
      create_stage_objects projXZ [⟨some (.point (0, 0))⟩, ⟨some (.point (1, 1))⟩] :=
  c7_missing_geometry_asymmetry [⟨some (.point (0, 0))⟩] [⟨some (.point (1, 1))⟩]
    ⟨none⟩ projXZ rfl

/-- C9: whenever the first emission pass succeeds with a projected
bounding box of zero width and zero depth, the normalization scale
`1.0 / max(width, depth) * 1000` divides by zero — the computation is
unguarded, so emission raises ZeroDivisionError. -/
theorem c9_zero_extent_division (proj : ℚ → ℚ → Vec3) (features : List Feature)
    (cb : CartBounds) (hpass : cartPass proj features cartInit = .ok cb)
    (hw : EFloat.sub cb.maxX cb.minX = .fin 0)
    (hd : EFloat.sub cb.maxZ cb.minZ = .fin 0) :
    create_stage_objects proj features =
      .error "ZeroDivisionError: float division by zero" := by
  unfold create_stage_objects
  rw [hpass]
  simp only [hw, hd]
  rfl

/-- C9 witness: a single Polygon feature whose exterior ring repeats one
coordinate projects to a single point, so both width and depth are zero
and emission crashes with ZeroDivisionError. -/
theorem c9_witness :
    create_stage_objects projXZ [⟨some (.polygon [[(0, 0)]])⟩] =
      .error "ZeroDivisionError: float division by zero" :=
  c9_zero_extent_division projXZ [⟨some (.polygon [[(0, 0)]])⟩]
    ⟨.fin 0, .fin 0, .fin 0, .fin 0⟩ (by decide) (by decide) (by decide)

end GeoJsonExt
